import Mathlib

/-!
Verification of the BBData path-addressed data-binding engine
(src/BBData/BBData.js, second revision in the file).

Shallow embedding conventions:
* JS strings are `List Char` (`JStr`); `String` literals enter via `.data`.
* The JSON-like document is the mutual inductive `JSVal` / `JSItems` /
  `JSFields`; JS reference equality on composites is not representable in a
  pure tree, and the source's own comment states the `===` short-circuit
  "only works for simple data-types", so `strictEq` is false on composites.
* Registries are association lists preserving JS insertion order; the JS
  object key `null` (used for root observers) is the literal string "null".
* DOM writes are abstracted as `Event.bindingUpdate` trace entries; observer
  callbacks are modelled by `Effect` (do nothing, or re-entrantly unobserve),
  and an observer invocation is an `Event.observerCall` trace entry.
* The one JS exception reachable from the modelled entry points — the
  TypeError thrown by `splice` on a non-sequence inside `moveInArray` — is
  recorded in the state's `thrown` flag; it aborts the remaining steps of
  the call (no insertion notification, no returned path), as the escaping
  exception does.
-/

abbrev JStr := List Char

/-- JS `path.split('.')` (split on a one-character separator). -/
def splitOnDot : JStr → List JStr
  | [] => [[]]
  | c :: rest =>
    match splitOnDot rest with
    | [] => [[c]]
    | h :: t => if c = '.' then [] :: h :: t else (c :: h) :: t

/-- JS array join with a dot separator, as in `parts` joined by '.'. -/
def joinDot : List JStr → JStr
  | [] => []
  | [s] => s
  | s :: rest => s ++ '.' :: joinDot rest

def digitsToNat (ds : JStr) : Nat :=
  ds.foldl (fun acc c => 10 * acc + (c.toNat - '0'.toNat)) 0

/-- Decimal rendering of a natural number, as JS produces when a number is
concatenated into a string. -/
def natToStr (n : Nat) : JStr := Nat.toDigits 10 n

def intToStr (i : Int) : JStr :=
  if i < 0 then '-' :: natToStr i.natAbs else natToStr i.toNat

/-- JS `parseInt(s, 10)`: skip whitespace, optional sign, longest leading
digit run; `none` models `NaN`. -/
def parseIntJS (s : JStr) : Option Int :=
  let t := s.dropWhile Char.isWhitespace
  match t with
  | '-' :: rest =>
    let ds := rest.takeWhile Char.isDigit
    if ds.isEmpty then none else some (-(digitsToNat ds : Int))
  | '+' :: rest =>
    let ds := rest.takeWhile Char.isDigit
    if ds.isEmpty then none else some ((digitsToNat ds : Int))
  | _ =>
    let ds := t.takeWhile Char.isDigit
    if ds.isEmpty then none else some ((digitsToNat ds : Int))

/-- A string is a canonical JS array index iff it is the decimal rendering of
its numeric value (so "2" is, "02" and "-1" are not). -/
def canonIndex (s : JStr) : Option Nat :=
  if natToStr (digitsToNat s) = s then some (digitsToNat s) else none

/-- JS `ToInteger` string coercion as used by `Array.prototype.splice`
(`NaN` becomes 0); fractional forms are out of modelled scope. -/
def toIntegerJS (s : JStr) : Int :=
  let t := s.dropWhile Char.isWhitespace
  match t with
  | [] => 0
  | '-' :: ds =>
    if !ds.isEmpty && ds.all Char.isDigit then -(digitsToNat ds : Int) else 0
  | '+' :: ds =>
    if !ds.isEmpty && ds.all Char.isDigit then (digitsToNat ds : Int) else 0
  | ds => if ds.all Char.isDigit then (digitsToNat ds : Int) else 0

def firstOccAux (hay needle : JStr) (i : Nat) : Option Nat :=
  if needle.isPrefixOf hay then some i
  else
    match hay with
    | [] => none
    | _ :: t => firstOccAux t needle (i + 1)

/-- JS `hay.indexOf(needle)`. -/
def jsIndexOf (hay needle : JStr) : Int :=
  match firstOccAux hay needle 0 with
  | some n => (n : Int)
  | none => -1

/-- The JS object key produced by using `null` as a property name. -/
def nullStr : JStr := "null".data

mutual
inductive JSVal where
  | null
  | undefined
  | bool (b : Bool)
  | num (n : Int)
  | str (s : JStr)
  | arr (elems : JSItems)
  | obj (fields : JSFields)
deriving DecidableEq, Repr
inductive JSItems where
  | nil
  | cons (head : JSVal) (tail : JSItems)
deriving DecidableEq, Repr
inductive JSFields where
  | nil
  | cons (key : JStr) (val : JSVal) (tail : JSFields)
deriving DecidableEq, Repr
end

def JSItems.length : JSItems → Nat
  | .nil => 0
  | .cons _ t => t.length + 1

def JSItems.get? : JSItems → Nat → Option JSVal
  | .nil, _ => none
  | .cons h _, 0 => some h
  | .cons _ t, n + 1 => t.get? n

def JSItems.set : JSItems → Nat → JSVal → JSItems
  | .nil, _, _ => .nil
  | .cons _ t, 0, v => .cons v t
  | .cons h t, n + 1, v => .cons h (t.set n v)

def JSItems.push : JSItems → JSVal → JSItems
  | .nil, v => .cons v .nil
  | .cons h t, v => .cons h (t.push v)

def JSItems.insertAt : JSItems → Nat → JSVal → JSItems
  | es, 0, v => .cons v es
  | .nil, _ + 1, v => .cons v .nil
  | .cons h t, n + 1, v => .cons h (t.insertAt n v)

def JSItems.removeAt : JSItems → Nat → JSItems
  | .nil, _ => .nil
  | .cons _ t, 0 => t
  | .cons h t, n + 1 => .cons h (t.removeAt n)

def JSItems.ofList : List JSVal → JSItems
  | [] => .nil
  | v :: rest => .cons v (JSItems.ofList rest)

def JSFields.lookup : JSFields → JStr → Option JSVal
  | .nil, _ => none
  | .cons k v t, key => if k = key then some v else t.lookup key

def JSFields.set : JSFields → JStr → JSVal → JSFields
  | .nil, key, v => .cons key v .nil
  | .cons k w t, key, v =>
    if k = key then .cons k v t else .cons k w (t.set key v)

def JSFields.remove : JSFields → JStr → JSFields
  | .nil, _ => .nil
  | .cons k w t, key =>
    if k = key then t.remove key else .cons k w (t.remove key)

def JSFields.ofList : List (JStr × JSVal) → JSFields
  | [] => .nil
  | (k, v) :: rest => .cons k v (JSFields.ofList rest)

/-- JS `typeof x === "object" && x !== null` (true for arrays and plain
objects). -/
def isObject : JSVal → Bool
  | .arr _ => true
  | .obj _ => true
  | _ => false

/-- JS `Array.isArray`. -/
def isArray : JSVal → Bool
  | .arr _ => true
  | _ => false

def isUndefined : JSVal → Bool
  | .undefined => true
  | _ => false

/-- JS truthiness of a value. -/
def truthy : JSVal → Bool
  | .null => false
  | .undefined => false
  | .bool b => b
  | .num n => !(n == 0)
  | .str s => !s.isEmpty
  | .arr _ => true
  | .obj _ => true

/-- JS `===`. Primitives compare by value; composites are never equal here:
reference identity has no pure counterpart, and the source comments that the
equality short-circuit "only works for simple data-types". -/
def strictEq : JSVal → JSVal → Bool
  | .null, .null => true
  | .undefined, .undefined => true
  | .bool a, .bool b => a == b
  | .num a, .num b => a == b
  | .str a, .str b => a == b
  | _, _ => false

/-- JS property read `v[key]` (`undefined` when absent). -/
def member (v : JSVal) (key : JStr) : JSVal :=
  match v with
  | .obj fs =>
    match fs.lookup key with
    | some x => x
    | none => .undefined
  | .arr es =>
    match canonIndex key with
    | some i =>
      match es.get? i with
      | some x => x
      | none => .undefined
    | none => .undefined
  | _ => .undefined

/-- JS property write `v[key] = x` (no-op on primitives; on arrays only
canonical indices up to the append position are representable). -/
def setMember (v : JSVal) (key : JStr) (x : JSVal) : JSVal :=
  match v with
  | .obj fs => .obj (fs.set key x)
  | .arr es =>
    match canonIndex key with
    | some i =>
      if i < es.length then .arr (es.set i x)
      else if i = es.length then .arr (es.push x)
      else v
    | none => v
  | _ => v

/-- JS `delete v[key]` and the `splice(key, 1)` branch used by `delete`. -/
def delMember (v : JSVal) (key : JStr) : JSVal :=
  match v with
  | .arr es =>
    let i := toIntegerJS key
    let start :=
      if i < 0 then (max ((es.length : Int) + i) 0).toNat
      else min i.toNat es.length
    .arr (es.removeAt start)
  | .obj fs => .obj (fs.remove key)
  | _ => v

namespace BBData

inductive Action where
  | create
  | update
  | delete
deriving DecidableEq, Repr

/-- A modelled observer callback body: either inert, or a re-entrant call to
`unobserve` on the same instance. -/
inductive Effect where
  | noop
  | unobserveEff (p : Option JStr)
deriving DecidableEq, Repr

/-- An observer registration (`observe` pushes `callback` and `context`;
the callback is abstracted by an id and its modelled `Effect`). -/
structure Obs where
  id : Nat
  effect : Effect
  context : Option Nat
deriving DecidableEq, Repr

/-- Externally visible notification steps: a DOM write performed for one
binding, or one observer callback invocation with its notification fields. -/
inductive Event where
  | bindingUpdate (path : JStr) (attr : JStr) (bindingId : Nat)
      (value : JSVal)
  | observerCall (path : Option JStr) (action : Action) (changedPath : JStr)
      (value : JSVal) (element : Option Nat) (context : Option Nat)
      (observerId : Nat)
deriving DecidableEq, Repr

def Event.isBindingUpdate : Event → Bool
  | .bindingUpdate _ _ _ _ => true
  | _ => false

def Event.obsPath : Event → Option (Option JStr)
  | .observerCall p _ _ _ _ _ _ => some p
  | _ => none

abbrev Bindings := List (JStr × List (JStr × List Nat))
abbrev Observables := List (JStr × List Obs)

def alookup {α : Type} : List (JStr × α) → JStr → Option α
  | [], _ => none
  | (k, v) :: rest, key => if k = key then some v else alookup rest key

def aset {α : Type} : List (JStr × α) → JStr → α → List (JStr × α)
  | [], key, v => [(key, v)]
  | (k, w) :: rest, key, v =>
    if k = key then (k, v) :: rest else (k, w) :: aset rest key v

/-- The whole engine state (`self`): the document plus both registries. The
`thrown` flag records that a JS exception escaped a modelled call (see the
module header); no modelled operation catches it. -/
structure BB where
  data : JSVal
  bindings : Bindings
  observables : Observables
  thrown : Bool := false
deriving DecidableEq, Repr

/-- The registry key actually used for an observer path: JS coerces the
`null` root path to the object key "null". -/
def jsObsKey : Option JStr → JStr
  | none => nullStr
  | some s => s

/-- `get(key, allowUndefined)`. -/
def get (data : JSVal) (key : Option JStr) (allowUndefined : Bool) : JSVal :=
  match key with
  | none => data
  | some k =>
    if k = [] then data
    else
      (splitOnDot k).foldl
        (fun value index =>
          if truthy value && !(isUndefined (member value index)) then
            member value index
          else if allowUndefined then .undefined else .null)
        data

def getParentPath (path : JStr) : JStr :=
  joinDot (splitOnDot path).dropLast

def getParentValue (data : JSVal) (path : JStr) : JSVal :=
  get data (some (getParentPath path)) false

def isInArray (data : JSVal) (path : JStr) : Bool :=
  isArray (getParentValue data path)

/-- `observe(path, callback, context)`: a falsy path registers under the
root key. -/
def observe (st : BB) (path : Option JStr) (o : Obs) : BB :=
  let key :=
    match path with
    | none => nullStr
    | some s => if s = [] then nullStr else s
  let cur :=
    match alookup st.observables key with
    | some l => l
    | none => []
  { st with observables := aset st.observables key (cur ++ [o]) }

/-- `unobserve(path)`: splices out every registration at exactly that key,
leaving the (now empty) key in place. -/
def unobserve (st : BB) (path : Option JStr) : BB :=
  let key := jsObsKey path
  match alookup st.observables key with
  | none => st
  | some _ =>
    { st with
        observables :=
          st.observables.map fun e =>
            if e.1 = key then (e.1, ([] : List Obs)) else e }

/-- `unobserveAll(optionalPath)`: drops every key whose string starts with
the argument (`path.indexOf(optionalPath) == 0`). -/
def unobserveAll (st : BB) (optionalPath : Option JStr) : BB :=
  let q :=
    match optionalPath with
    | none => ([] : JStr)
    | some s => s
  { st with
      observables := st.observables.filter fun e => !(jsIndexOf e.1 q == 0) }

/-- `bind(domElement, path, attribute, options)`, with the DOM element
abstracted to a binding id; pushes the binding and performs the initial
update from the current value. -/
def updateBoundElementsForPathAndAttribute (b : Bindings)
    (path attr : JStr) (value : JSVal) : List Event :=
  match alookup b path with
  | none => []
  | some attrs =>
    match alookup attrs attr with
    | none => []
    | some ids => ids.map fun bid => .bindingUpdate path attr bid value

def bind (st : BB) (path : JStr) (attr : JStr) (bindingId : Nat) :
    BB × List Event :=
  let attr := if attr = [] then "value".data else attr
  let attrs :=
    match alookup st.bindings path with
    | some a => a
    | none => []
  let ids :=
    match alookup attrs attr with
    | some l => l
    | none => []
  let st' :=
    { st with
        bindings :=
          aset st.bindings path (aset attrs attr (ids ++ [bindingId])) }
  (st',
    updateBoundElementsForPathAndAttribute st'.bindings path attr
      (get st'.data (some path) false))

/-- `unbindAll(optionalPath)`: drops every path whose string starts with the
argument. -/
def unbindAll (st : BB) (optionalPath : Option JStr) : BB :=
  let q :=
    match optionalPath with
    | none => ([] : JStr)
    | some s => s
  { st with
      bindings := st.bindings.filter fun e => !(jsIndexOf e.1 q == 0) }

def updateBoundElementsForPath (b : Bindings) (path : JStr) (value : JSVal) :
    List Event :=
  match alookup b path with
  | none => []
  | some attrs =>
    (attrs.map fun e =>
        updateBoundElementsForPathAndAttribute b path e.1 value).flatten

mutual
def updateBoundElementsAtPathRecursivly (b : Bindings) (path : JStr)
    (value : JSVal) : List Event :=
  (match alookup b path with
   | none => []
   | some attrs =>
     (attrs.map fun e =>
         updateBoundElementsForPathAndAttribute b path e.1 value).flatten)
  ++
  (match value with
   | .obj fs => updFields b path fs
   | .arr es => updItems b path 0 es
   | _ => [])
def updFields (b : Bindings) (path : JStr) : JSFields → List Event
  | .nil => []
  | .cons k v rest =>
    updateBoundElementsAtPathRecursivly b (path ++ '.' :: k) v
      ++ updFields b path rest
def updItems (b : Bindings) (path : JStr) (i : Nat) : JSItems → List Event
  | .nil => []
  | .cons v rest =>
    updateBoundElementsAtPathRecursivly b (path ++ '.' :: natToStr i) v
      ++ updItems b path (i + 1) rest
end

/-- `updateBoundElementsAtPath`: descendant fan-out into the written value
(children only; nothing is emitted for `path` itself here). -/
def updateBoundElementsAtPath (b : Bindings) (path : JStr) (value : JSVal) :
    List Event :=
  match value with
  | .obj fs => updFields b path fs
  | .arr es => updItems b path 0 es
  | _ => []

def applyEffect (st : BB) : Effect → BB
  | .noop => st
  | .unobserveEff p => unobserve st p

/-- The body of `notifyObserversForPath`'s `for` loop: the index test reads
the live registration list each iteration (no snapshot is taken). Fuel is
the list length at entry; registrations can only be removed mid-loop, never
added, so the fuel never runs out before the live index test stops the
loop. -/
def obsLoop (fuel : Nat) (st : BB) (p : Option JStr) (value : JSVal)
    (changedPath : JStr) (action : Action) (element : Option Nat) (i : Nat) :
    BB × List Event :=
  match fuel with
  | 0 => (st, [])
  | fuel + 1 =>
    match alookup st.observables (jsObsKey p) with
    | none => (st, [])
    | some l =>
      match l.get? i with
      | none => (st, [])
      | some ob =>
        let ev :=
          Event.observerCall p action changedPath value element ob.context
            ob.id
        let r :=
          obsLoop fuel (applyEffect st ob.effect) p value changedPath action
            element (i + 1)
        (r.1, ev :: r.2)

def notifyObserversForPath (st : BB) (p : Option JStr) (value : JSVal)
    (changedPath : JStr) (action : Action) (element : Option Nat) :
    BB × List Event :=
  match alookup st.observables (jsObsKey p) with
  | none => (st, [])
  | some l => obsLoop l.length st p value changedPath action element 0

/-- The successive ancestor paths visited by `notifyObserversFromPath`'s
`while` loop: drop the changed segment, then re-join and pop until empty. -/
def ancestorChain (path : JStr) : List JStr :=
  let parts := (splitOnDot path).dropLast
  (List.range parts.length).reverse.map fun k => joinDot (parts.take (k + 1))

def ancestorsLoop (st : BB) (chain : List JStr) (changedPath : JStr)
    (action : Action) (element : Option Nat) : BB × List Event :=
  match chain with
  | [] => (st, [])
  | cp :: rest =>
    let r1 :=
      match alookup st.observables cp with
      | none => (st, ([] : List Event))
      | some _ =>
        notifyObserversForPath st (some cp) (get st.data (some cp) false)
          changedPath action element
    let r2 := ancestorsLoop r1.1 rest changedPath action element
    (r2.1, r1.2 ++ r2.2)

/-- `notifyObserversFromPath`: ancestors root-ward, then always the root
(`null`) key, whose value is `get("")`, the whole document. -/
def notifyObserversFromPath (st : BB) (path : JStr) (action : Action)
    (element : Option Nat) : BB × List Event :=
  let r1 := ancestorsLoop st (ancestorChain path) path action element
  let r2 :=
    notifyObserversForPath r1.1 none (get r1.1.data (some []) false) path
      action element
  (r2.1, r1.2 ++ r2.2)

/-- `notify(path, value, action, element)`. -/
def notify (st : BB) (path : JStr) (value : JSVal) (action : Action)
    (element : Option Nat) : BB × List Event :=
  let e1 := updateBoundElementsForPath st.bindings path value
  let e2 := updateBoundElementsAtPath st.bindings path value
  let r3 :=
    match alookup st.observables path with
    | none => (st, ([] : List Event))
    | some _ =>
      notifyObserversForPath st (some path) value path action element
  let r4 := notifyObserversFromPath r3.1 path action element
  (r4.1, e1 ++ e2 ++ r3.2 ++ r4.2)

/-- The `reduce` walk inside `set`: create plain objects over missing or
non-composite intermediate segments; at the final segment clamp a numeric
index into a sequence parent and record the possibly corrected path. -/
def setWalk (doc : JSVal) (segs : List JStr) (fullPath : JStr)
    (value : JSVal) : JSVal × JStr × Action :=
  match segs with
  | [] => (doc, fullPath, .update)
  | [cur] =>
    match doc with
    | .arr es =>
      let cur' :=
        match parseIntJS cur with
        | some i =>
          if i > (es.length : Int) then natToStr es.length
          else if i < 0 then natToStr 0
          else cur
        | none => cur
      let pp := getParentPath fullPath
      let modifiedPath := (if pp ≠ [] then pp ++ ['.'] else []) ++ cur'
      let isNew := isUndefined (member doc cur')
      (setMember doc cur' value, modifiedPath,
        if isNew then .create else .update)
    | _ =>
      let isNew := isUndefined (member doc cur)
      (setMember doc cur value, fullPath, if isNew then .create else .update)
  | cur :: rest =>
    let child := member doc cur
    if isObject child then
      let r := setWalk child rest fullPath value
      (setMember doc cur r.1, r.2)
    else
      let r := setWalk (.obj .nil) rest fullPath value
      (setMember doc cur r.1, r.2)

/-- `set(path, value, element)`: returns the new state, the returned value
(`some` canonical path, or `none` for the `undefined` of the equality
short-circuit), and the notification trace. -/
def set (st : BB) (path : JStr) (value : JSVal) (element : Option Nat) :
    BB × Option JStr × List Event :=
  if strictEq (get st.data (some path) false) value then (st, none, [])
  else
    let w := setWalk st.data (splitOnDot path) path value
    let r := notify { st with data := w.1 } w.2.1 value w.2.2 element
    (r.1, some w.2.1, r.2)

def deleteWalk (doc : JSVal) (segs : List JStr) : JSVal :=
  match segs with
  | [] => doc
  | [cur] => delMember doc cur
  | cur :: rest =>
    let child := member doc cur
    if isObject child then setMember doc cur (deleteWalk child rest)
    else setMember doc cur (deleteWalk (.obj .nil) rest)

/-- `delete(path)`: at the final segment, first `unbindAll(path)` (string
prefix) and `unobserve(path)` (exact key), then remove the element, then
emit the delete notification with value `null`. -/
def delete (st : BB) (path : JStr) : BB × List Event :=
  let st1 := unbindAll st (some path)
  let st2 := unobserve st1 (some path)
  let st3 := { st2 with data := deleteWalk st2.data (splitOnDot path) }
  notify st3 path .null .delete none

/-- The `reduce` walk inside `moveInArray`: insert (splice) at the clamped
index of the destination sequence. A non-sequence final parent makes JS
throw a TypeError from `prev.splice`; the walk reports that in its third
component (no path, intermediate object creations already applied). -/
def miaWalk (doc : JSVal) (segs : List JStr) (toPath : JStr) (value : JSVal) :
    JSVal × Option JStr × Bool :=
  match segs with
  | [] => (doc, none, false)
  | [cur] =>
    match doc with
    | .arr es =>
      let index : Int :=
        match parseIntJS cur with
        | none => 0
        | some i => i
      let index := if index > (es.length : Int) then (es.length : Int) else index
      let start :=
        if index < 0 then (max ((es.length : Int) + index) 0).toNat
        else index.toNat
      let pp := getParentPath toPath
      (.arr (es.insertAt (min start es.length) value),
        some ((if pp ≠ [] then pp ++ ['.'] else []) ++ intToStr index),
        false)
    | _ => (doc, none, true)
  | cur :: rest =>
    let child := member doc cur
    if isObject child then
      let r := miaWalk child rest toPath value
      (setMember doc cur r.1, r.2)
    else
      let r := miaWalk (.obj .nil) rest toPath value
      (setMember doc cur r.1, r.2)

def moveInArray (st : BB) (fromPath toPath : JStr) :
    BB × Option JStr × List Event :=
  let value := get st.data (some fromPath) false
  let d := delete st fromPath
  let w := miaWalk d.1.data (splitOnDot toPath) toPath value
  let st2 := { d.1 with data := w.1, thrown := d.1.thrown || w.2.2 }
  match w.2.1 with
  | none => (st2, none, d.2)
  | some p =>
    let r := notify st2 p value .create none
    (r.1, some p, d.2 ++ r.2)

def moveInObject (st : BB) (fromPath toPath : JStr) :
    BB × Option JStr × List Event :=
  let value := get st.data (some fromPath) false
  let d := delete st fromPath
  let r := set d.1 toPath value none
  (r.1, r.2.1, d.2 ++ r.2.2)

/-- `move(fromPath, toPath)`: no-op on equal paths, else delete-then-insert,
choosing sequence insertion when the destination's parent is a sequence. -/
def move (st : BB) (fromPath toPath : JStr) : BB × Option JStr × List Event :=
  if fromPath = toPath then (st, none, [])
  else if isInArray st.data toPath then moveInArray st fromPath toPath
  else moveInObject st fromPath toPath

/-- All observers currently registered on the instance are inert (`noop`)
callbacks. -/
@[reducible]
def NoopObs (st : BB) : Prop :=
  ∀ e ∈ st.observables, ∀ ob ∈ e.2, ob.effect = .noop

/-- The events a single ancestor path contributes during ancestor
notification, when no callback mutates the registry. -/
def ancestorBlock (st : BB) (changedPath : JStr) (a : Action)
    (el : Option Nat) (cp : JStr) : List Event :=
  match alookup st.observables cp with
  | none => []
  | some l =>
    l.map fun ob =>
      .observerCall (some cp) a changedPath (get st.data (some cp) false) el
        ob.context ob.id

/-- The full notification trace of `notify`, spelled out, for a state whose
observers are all inert. -/
def notifySpec (st : BB) (path : JStr) (value : JSVal) (a : Action)
    (el : Option Nat) : List Event :=
  updateBoundElementsForPath st.bindings path value
  ++ updateBoundElementsAtPath st.bindings path value
  ++ (match alookup st.observables path with
      | none => []
      | some l =>
        l.map fun ob =>
          .observerCall (some path) a path value el ob.context ob.id)
  ++ ((ancestorChain path).map (ancestorBlock st path a el)).flatten
  ++ (match alookup st.observables nullStr with
      | none => []
      | some l =>
        l.map fun ob =>
          .observerCall none a path (get st.data (some []) false) el
            ob.context ob.id)

/-- The non-final path segments resolve to composite values along the member
chain, ending at the final parent. -/
def resolvesComposite (doc : JSVal) : List JStr → Option JSVal
  | [] => some doc
  | s :: rest =>
    if isObject (member doc s) then resolvesComposite (member doc s) rest
    else none

/-- Rewrite of a document along a member chain, as the in-place mutation of
the `reduce` walk produces when every intermediate is composite. -/
def updateAlong (doc : JSVal) : List JStr → JSVal → JSVal
  | [], x => x
  | s :: rest, x => setMember doc s (updateAlong (member doc s) rest x)

/-- The path the recursive descendant walk builds by appending one key per
level. -/
def extendPath (p : JStr) : List JStr → JStr
  | [] => p
  | k :: rest => extendPath (p ++ '.' :: k) rest

/-- The sub-value of a composite reached by following the given keys, as the
recursive walk of `updateBoundElementsAtPath` addresses it. -/
def subValue (v : JSVal) : List JStr → Option JSVal
  | [] => some v
  | k :: rest =>
    match v with
    | .obj fs =>
      match fs.lookup k with
      | some c => subValue c rest
      | none => none
    | .arr es =>
      match canonIndex k with
      | some i =>
        match es.get? i with
        | some c => subValue c rest
        | none => none
      | none => none
    | _ => none

/-- Document with a binding and an observer both registered at "a.b". -/
def exC1 : BB :=
  { data := .obj (.cons "a".data (.obj (.cons "b".data (.num 1) .nil)) .nil),
    bindings := [("a.b".data, [("value".data, [0])])],
    observables :=
      [("a.b".data, [{ id := 0, effect := .noop, context := none }])] }

/-- Document whose value at "a" is an array, with an observer at "a". -/
def exC3 : BB :=
  { data := .obj (.cons "a".data (.arr (.cons (.num 1) .nil)) .nil),
    bindings := [],
    observables :=
      [("a".data, [{ id := 3, effect := .noop, context := none }])] }

/-- Document whose value at "a" is the primitive 5. -/
def exC3p : BB :=
  { data := .obj (.cons "a".data (.num 5) .nil),
    bindings := [],
    observables :=
      [("a".data, [{ id := 3, effect := .noop, context := none }])] }

/-- The clamp example document: a two-element list. -/
def exC4 : BB :=
  { data := .obj (.cons "list".data
      (.arr (.cons (.str "x".data) (.cons (.str "y".data) .nil))) .nil),
    bindings := [], observables := [] }

/-- Document with an empty mapping at "a" and a binding on "a.b". -/
def exC5 : BB :=
  { data := .obj (.cons "a".data (.obj .nil) .nil),
    bindings := [("a.b".data, [("value".data, [0])])],
    observables := [] }

/-- Move example: mapping at "a.b" carrying "a.b.x", sequence at "c"; a
binding at "a.b" and observers at "a.b" and at the descendant "a.b.x". -/
def exC6 : BB :=
  { data := .obj (.cons "a".data
      (.obj (.cons "b".data (.obj (.cons "x".data (.num 1) .nil)) .nil))
      (.cons "c".data
        (.arr (.cons (.str "p".data) (.cons (.str "q".data) .nil))) .nil)),
    bindings := [("a.b".data, [("value".data, [7])])],
    observables :=
      [("a.b".data, [{ id := 6, effect := .noop, context := none }]),
       ("a.b.x".data, [{ id := 5, effect := .noop, context := none }])] }

/-- The move example `exC6` with a root (null-path) observer added, so the
move's delete and create notifications are visible in the trace. -/
def exC6r : BB :=
  { exC6 with
      observables := exC6.observables ++
        [(nullStr, [{ id := 8, effect := .noop, context := none }])] }

/-- Document holding a one-element sequence at "c"; `move("c", "c.0")`
destroys the destination parent (checked before the delete) and reaches the
TypeError branch of the sequence insertion. -/
def exMoveThrow : BB :=
  { data := .obj (.cons "c".data (.arr (.cons (.str "p".data) .nil)) .nil),
    bindings := [], observables := [] }

/-- Two observers at "p"; the first re-entrantly unobserves "p". -/
def exC7 : BB :=
  { data := .obj (.cons "p".data (.num 1) .nil),
    bindings := [],
    observables :=
      [("p".data,
        [{ id := 10, effect := .unobserveEff (some "p".data),
           context := none },
         { id := 11, effect := .noop, context := none }])] }

/-- Registrations at "user", "user.a", "username" and "team". -/
def exC8 : BB :=
  { data := .obj .nil,
    bindings :=
      [("user".data, [("value".data, [0])]),
       ("user.a".data, [("value".data, [1])]),
       ("username".data, [("value".data, [2])]),
       ("team".data, [("value".data, [3])])],
    observables :=
      [("user".data, [{ id := 6, effect := .noop, context := none }]),
       ("user.a".data, [{ id := 7, effect := .noop, context := none }]),
       ("username".data, [{ id := 8, effect := .noop, context := none }]),
       ("team".data, [{ id := 9, effect := .noop, context := none }])] }

/-- Document holding the primitive 1 at "a", with empty registries. -/
def exC9 : BB :=
  { data := .obj (.cons "a".data (.num 1) .nil),
    bindings := [], observables := [] }

/-- Document with observers at "a.b" and its ancestor "a". -/
def exC10 : BB :=
  { data := .obj (.cons "a".data (.obj (.cons "b".data (.num 1) .nil)) .nil),
    bindings := [],
    observables :=
      [("a.b".data, [{ id := 0, effect := .noop, context := none }]),
       ("a".data, [{ id := 1, effect := .noop, context := none }])] }

/-- The engine state at the moment `delete` emits its notification: both
registries already scrubbed and the element already removed. -/
def deleteMid (st : BB) (p : JStr) : BB :=
  { unobserve (unbindAll st (some p)) (some p) with
      data := deleteWalk (unobserve (unbindAll st (some p)) (some p)).data
        (splitOnDot p) }

end BBData

namespace BBData

theorem unobserve_data (st : BB) (p : Option JStr) :
    (unobserve st p).data = st.data := by
  simp only [unobserve]
  cases alookup st.observables (jsObsKey p) <;> rfl

theorem unobserve_bindings (st : BB) (p : Option JStr) :
    (unobserve st p).bindings = st.bindings := by
  simp only [unobserve]
  cases alookup st.observables (jsObsKey p) <;> rfl

theorem unobserve_thrown (st : BB) (p : Option JStr) :
    (unobserve st p).thrown = st.thrown := by
  simp only [unobserve]
  cases alookup st.observables (jsObsKey p) <;> rfl

theorem applyEffect_data (st : BB) (e : Effect) :
    (applyEffect st e).data = st.data := by
  cases e with
  | noop => rfl
  | unobserveEff p => exact unobserve_data st p

theorem applyEffect_bindings (st : BB) (e : Effect) :
    (applyEffect st e).bindings = st.bindings := by
  cases e with
  | noop => rfl
  | unobserveEff p => exact unobserve_bindings st p

theorem obsLoop_data (fuel : Nat) :
    ∀ (st : BB) (p : Option JStr) (v : JSVal) (cp : JStr) (a : Action)
      (el : Option Nat) (i : Nat),
      (obsLoop fuel st p v cp a el i).1.data = st.data := by
  induction fuel with
  | zero => intro st p v cp a el i; rfl
  | succ fuel ih =>
    intro st p v cp a el i
    simp only [obsLoop]
    split
    · rfl
    · split
      · rfl
      · rw [ih, applyEffect_data]

theorem obsLoop_bindings (fuel : Nat) :
    ∀ (st : BB) (p : Option JStr) (v : JSVal) (cp : JStr) (a : Action)
      (el : Option Nat) (i : Nat),
      (obsLoop fuel st p v cp a el i).1.bindings = st.bindings := by
  induction fuel with
  | zero => intro st p v cp a el i; rfl
  | succ fuel ih =>
    intro st p v cp a el i
    simp only [obsLoop]
    split
    · rfl
    · split
      · rfl
      · rw [ih, applyEffect_bindings]

theorem notifyObserversForPath_data (st : BB) (p : Option JStr) (v : JSVal)
    (cp : JStr) (a : Action) (el : Option Nat) :
    (notifyObserversForPath st p v cp a el).1.data = st.data := by
  simp only [notifyObserversForPath]
  split
  · rfl
  · exact obsLoop_data _ _ _ _ _ _ _ _

theorem notifyObserversForPath_bindings (st : BB) (p : Option JStr)
    (v : JSVal) (cp : JStr) (a : Action) (el : Option Nat) :
    (notifyObserversForPath st p v cp a el).1.bindings = st.bindings := by
  simp only [notifyObserversForPath]
  split
  · rfl
  · exact obsLoop_bindings _ _ _ _ _ _ _ _

theorem ancestorsLoop_data (chain : List JStr) :
    ∀ (st : BB) (cp : JStr) (a : Action) (el : Option Nat),
      (ancestorsLoop st chain cp a el).1.data = st.data := by
  induction chain with
  | nil => intro st cp a el; rfl
  | cons q rest ih =>
    intro st cp a el
    simp only [ancestorsLoop]
    split
    · rw [ih]
    · rw [ih, notifyObserversForPath_data]

theorem ancestorsLoop_bindings (chain : List JStr) :
    ∀ (st : BB) (cp : JStr) (a : Action) (el : Option Nat),
      (ancestorsLoop st chain cp a el).1.bindings = st.bindings := by
  induction chain with
  | nil => intro st cp a el; rfl
  | cons q rest ih =>
    intro st cp a el
    simp only [ancestorsLoop]
    split
    · rw [ih]
    · rw [ih, notifyObserversForPath_bindings]

theorem notifyObserversFromPath_data (st : BB) (path : JStr) (a : Action)
    (el : Option Nat) :
    (notifyObserversFromPath st path a el).1.data = st.data := by
  simp only [notifyObserversFromPath]
  rw [notifyObserversForPath_data, ancestorsLoop_data]

theorem notifyObserversFromPath_bindings (st : BB) (path : JStr) (a : Action)
    (el : Option Nat) :
    (notifyObserversFromPath st path a el).1.bindings = st.bindings := by
  simp only [notifyObserversFromPath]
  rw [notifyObserversForPath_bindings, ancestorsLoop_bindings]

theorem notify_data (st : BB) (path : JStr) (v : JSVal) (a : Action)
    (el : Option Nat) : (notify st path v a el).1.data = st.data := by
  simp only [notify]
  rw [notifyObserversFromPath_data]
  split
  · rfl
  · exact notifyObserversForPath_data _ _ _ _ _ _

theorem notify_bindings (st : BB) (path : JStr) (v : JSVal) (a : Action)
    (el : Option Nat) : (notify st path v a el).1.bindings = st.bindings := by
  simp only [notify]
  rw [notifyObserversFromPath_bindings]
  split
  · rfl
  · exact notifyObserversForPath_bindings _ _ _ _ _ _

theorem obsLoop_shape (fuel : Nat) :
    ∀ (st : BB) (p : Option JStr) (v : JSVal) (cp : JStr) (a : Action)
      (el : Option Nat) (i : Nat) (ev : Event),
      ev ∈ (obsLoop fuel st p v cp a el i).2 →
      ∃ ctx oid, ev = .observerCall p a cp v el ctx oid := by
  induction fuel with
  | zero => intro st p v cp a el i ev h; simp [obsLoop] at h
  | succ fuel ih =>
    intro st p v cp a el i ev h
    simp only [obsLoop] at h
    split at h
    · simp at h
    · split at h
      · simp at h
      · rename_i ob _
        simp only [List.mem_cons] at h
        rcases h with h | h
        · exact ⟨ob.context, ob.id, h⟩
        · exact ih _ _ _ _ _ _ _ _ h

theorem notifyObserversForPath_shape (st : BB) (p : Option JStr) (v : JSVal)
    (cp : JStr) (a : Action) (el : Option Nat) (ev : Event)
    (h : ev ∈ (notifyObserversForPath st p v cp a el).2) :
    ∃ ctx oid, ev = .observerCall p a cp v el ctx oid := by
  simp only [notifyObserversForPath] at h
  split at h
  · simp at h
  · exact obsLoop_shape _ _ _ _ _ _ _ _ _ h

theorem updateBoundElementsForPathAndAttribute_shape (b : Bindings)
    (path attr : JStr) (v : JSVal) (ev : Event)
    (h : ev ∈ updateBoundElementsForPathAndAttribute b path attr v) :
    ev.isBindingUpdate = true := by
  simp only [updateBoundElementsForPathAndAttribute] at h
  split at h
  · simp at h
  · split at h
    · simp at h
    · rcases List.mem_map.1 h with ⟨bid, _, hev⟩
      rw [← hev]
      rfl

theorem updateBoundElementsForPath_shape (b : Bindings) (path : JStr)
    (v : JSVal) (ev : Event)
    (h : ev ∈ updateBoundElementsForPath b path v) :
    ev.isBindingUpdate = true := by
  simp only [updateBoundElementsForPath] at h
  split at h
  · simp at h
  · rcases List.mem_flatten.1 h with ⟨blk, hblk, hev⟩
    rcases List.mem_map.1 hblk with ⟨e, _, hb⟩
    rw [← hb] at hev
    exact updateBoundElementsForPathAndAttribute_shape _ _ _ _ _ hev

end BBData

namespace BBData

mutual
theorem updateBoundElementsAtPathRecursivly_shape (b : Bindings) (path : JStr)
    (v : JSVal) (ev : Event)
    (h : ev ∈ updateBoundElementsAtPathRecursivly b path v) :
    ev.isBindingUpdate = true := by
  cases v with
  | obj fs =>
    simp only [updateBoundElementsAtPathRecursivly] at h
    rcases List.mem_append.1 h with h1 | h1
    · exact updateBoundElementsForPath_shape b path (.obj fs) ev h1
    · exact updFields_shape b path fs ev h1
  | arr es =>
    simp only [updateBoundElementsAtPathRecursivly] at h
    rcases List.mem_append.1 h with h1 | h1
    · exact updateBoundElementsForPath_shape b path (.arr es) ev h1
    · exact updItems_shape b path 0 es ev h1
  | null =>
    simp only [updateBoundElementsAtPathRecursivly, List.append_nil] at h
    exact updateBoundElementsForPath_shape b path .null ev h
  | undefined =>
    simp only [updateBoundElementsAtPathRecursivly, List.append_nil] at h
    exact updateBoundElementsForPath_shape b path .undefined ev h
  | bool x =>
    simp only [updateBoundElementsAtPathRecursivly, List.append_nil] at h
    exact updateBoundElementsForPath_shape b path (.bool x) ev h
  | num x =>
    simp only [updateBoundElementsAtPathRecursivly, List.append_nil] at h
    exact updateBoundElementsForPath_shape b path (.num x) ev h
  | str x =>
    simp only [updateBoundElementsAtPathRecursivly, List.append_nil] at h
    exact updateBoundElementsForPath_shape b path (.str x) ev h
theorem updFields_shape (b : Bindings) (path : JStr) (fs : JSFields)
    (ev : Event) (h : ev ∈ updFields b path fs) :
    ev.isBindingUpdate = true := by
  cases fs with
  | nil => simp [updFields] at h
  | cons k v rest =>
    simp only [updFields] at h
    rcases List.mem_append.1 h with h1 | h1
    · exact updateBoundElementsAtPathRecursivly_shape b (path ++ '.' :: k) v
        ev h1
    · exact updFields_shape b path rest ev h1
theorem updItems_shape (b : Bindings) (path : JStr) (i : Nat) (es : JSItems)
    (ev : Event) (h : ev ∈ updItems b path i es) :
    ev.isBindingUpdate = true := by
  cases es with
  | nil => simp [updItems] at h
  | cons v rest =>
    simp only [updItems] at h
    rcases List.mem_append.1 h with h1 | h1
    · exact updateBoundElementsAtPathRecursivly_shape b
        (path ++ '.' :: natToStr i) v ev h1
    · exact updItems_shape b path (i + 1) rest ev h1
end

theorem updateBoundElementsAtPath_shape (b : Bindings) (path : JStr)
    (v : JSVal) (ev : Event) (h : ev ∈ updateBoundElementsAtPath b path v) :
    ev.isBindingUpdate = true := by
  cases v with
  | obj fs => exact updFields_shape b path fs ev h
  | arr es => exact updItems_shape b path 0 es ev h
  | null => simp [updateBoundElementsAtPath] at h
  | undefined => simp [updateBoundElementsAtPath] at h
  | bool x => simp [updateBoundElementsAtPath] at h
  | num x => simp [updateBoundElementsAtPath] at h
  | str x => simp [updateBoundElementsAtPath] at h

theorem alookup_mem {α : Type} (L : List (JStr × α)) (k : JStr) (x : α)
    (h : alookup L k = some x) : (k, x) ∈ L := by
  induction L with
  | nil => simp [alookup] at h
  | cons e rest ih =>
    rcases e with ⟨k', v'⟩
    simp only [alookup] at h
    split at h
    · rename_i heq
      rcases Option.some.inj h with rfl
      rw [heq]
      exact List.mem_cons_self _ _
    · exact List.mem_cons_of_mem _ (ih h)

theorem NoopObs.lookup {st : BB} (hN : NoopObs st) {key : JStr}
    {l : List Obs} (h : alookup st.observables key = some l) :
    ∀ ob ∈ l, ob.effect = .noop :=
  hN (key, l) (alookup_mem _ _ _ h)

theorem obsLoop_noop (l : List Obs) (hl : ∀ ob ∈ l, ob.effect = .noop)
    (p : Option JStr) (v : JSVal) (cp : JStr) (a : Action)
    (el : Option Nat) :
    ∀ (fuel i : Nat) (st : BB),
      alookup st.observables (jsObsKey p) = some l →
      l.length ≤ fuel + i →
      obsLoop fuel st p v cp a el i =
        (st, (l.drop i).map fun ob =>
          .observerCall p a cp v el ob.context ob.id) := by
  intro fuel
  induction fuel with
  | zero =>
    intro i st hlk hle
    rw [List.drop_eq_nil_of_le (by omega)]
    rfl
  | succ fuel ih =>
    intro i st hlk hle
    simp only [obsLoop, hlk]
    split
    · rename_i hg
      have hlen : l.length ≤ i := List.get?_eq_none.1 hg
      rw [List.drop_eq_nil_of_le hlen]
      rfl
    · rename_i ob hg
      have hin : ob ∈ l := List.get?_mem hg
      have hlt : i < l.length := by
        by_contra hc
        push_neg at hc
        rw [List.get?_eq_none.2 hc] at hg
        exact Option.noConfusion hg
      rw [hl ob hin]
      simp only [applyEffect]
      rw [ih (i + 1) st hlk (by omega)]
      have hdrop : l.drop i = ob :: l.drop (i + 1) := by
        rw [List.drop_eq_getElem_cons hlt]
        have h2 := List.get?_eq_getElem? l i
        rw [hg, List.getElem?_eq_getElem hlt] at h2
        rw [(Option.some.inj h2).symm]
      rw [hdrop, List.map_cons]

theorem notifyObserversForPath_noop (st : BB) (p : Option JStr) (v : JSVal)
    (cp : JStr) (a : Action) (el : Option Nat) (l : List Obs)
    (hlk : alookup st.observables (jsObsKey p) = some l)
    (hl : ∀ ob ∈ l, ob.effect = .noop) :
    notifyObserversForPath st p v cp a el =
      (st, l.map fun ob => .observerCall p a cp v el ob.context ob.id) := by
  simp only [notifyObserversForPath, hlk]
  have := obsLoop_noop l hl p v cp a el l.length 0 st hlk (by omega)
  rw [this]
  rfl

theorem ancestorsLoop_noop (chain : List JStr) (st : BB) (cp : JStr)
    (a : Action) (el : Option Nat) (hN : NoopObs st) :
    ancestorsLoop st chain cp a el =
      (st, (chain.map (ancestorBlock st cp a el)).flatten) := by
  induction chain with
  | nil => rfl
  | cons q rest ih =>
    simp only [ancestorsLoop]
    cases hq : alookup st.observables q with
    | none =>
      simp only [hq]
      rw [ih]
      simp [ancestorBlock, hq]
    | some l =>
      simp only [hq]
      rw [notifyObserversForPath_noop st (some q) _ _ _ _ l hq
        (hN.lookup hq)]
      rw [ih]
      simp [ancestorBlock, hq]

theorem notify_noop (st : BB) (path : JStr) (value : JSVal) (a : Action)
    (el : Option Nat) (hN : NoopObs st) :
    notify st path value a el = (st, notifySpec st path value a el) := by
  simp only [notify, notifyObserversFromPath, notifySpec]
  have hanc := ancestorsLoop_noop (ancestorChain path) st path a el hN
  cases hp : alookup st.observables path with
  | none =>
    simp only [hp, hanc]
    cases hr : alookup st.observables nullStr with
    | none =>
      have : notifyObserversForPath st none (get st.data (some []) false)
          path a el = (st, []) := by
        simp [notifyObserversForPath, jsObsKey, hr]
      simp [this]
    | some l =>
      rw [notifyObserversForPath_noop st none _ _ _ _ l hr (hN.lookup hr)]
      simp
  | some l =>
    rw [notifyObserversForPath_noop st (some path) _ _ _ _ l hp
      (hN.lookup hp)]
    simp only [hanc]
    cases hr : alookup st.observables nullStr with
    | none =>
      have : notifyObserversForPath st none (get st.data (some []) false)
          path a el = (st, []) := by
        simp [notifyObserversForPath, jsObsKey, hr]
      simp [this]
    | some l2 =>
      rw [notifyObserversForPath_noop st none _ _ _ _ l2 hr (hN.lookup hr)]
      simp

end BBData

namespace BBData

theorem firstOccAux_ge (needle : JStr) :
    ∀ (hay : JStr) (i j : Nat), firstOccAux hay needle i = some j → i ≤ j := by
  intro hay
  induction hay with
  | nil =>
    intro i j h
    simp only [firstOccAux] at h
    split at h
    · exact le_of_eq (Option.some.inj h)
    · exact Option.noConfusion h
  | cons c t ih =>
    intro i j h
    simp only [firstOccAux] at h
    split at h
    · exact le_of_eq (Option.some.inj h)
    · exact Nat.le_of_succ_le (ih (i + 1) j h)

theorem jsIndexOf_eq_zero_iff (hay needle : JStr) :
    jsIndexOf hay needle = 0 ↔ needle.isPrefixOf hay = true := by
  constructor
  · intro h
    simp only [jsIndexOf] at h
    cases hf : firstOccAux hay needle 0 with
    | none => simp only [hf] at h; exact absurd h (by decide)
    | some n =>
      simp only [hf] at h
      have hn : n = 0 := by exact_mod_cast h
      subst hn
      by_cases hp : needle.isPrefixOf hay
      · exact hp
      · exfalso
        cases hay with
        | nil => simp [firstOccAux, hp] at hf
        | cons c t =>
          simp only [firstOccAux, hp] at hf
          have := firstOccAux_ge needle t 1 0 hf
          omega
  · intro hp
    have h0 : firstOccAux hay needle 0 = some 0 := by
      cases hay with
      | nil => simp [firstOccAux, hp]
      | cons c t => simp [firstOccAux, hp]
    simp [jsIndexOf, h0]

theorem jsIndexOf_beq_zero (hay needle : JStr) :
    (jsIndexOf hay needle == 0) = needle.isPrefixOf hay := by
  rcases Bool.eq_false_or_eq_true (needle.isPrefixOf hay) with hb | hb <;>
    rw [hb]
  · simp [(jsIndexOf_eq_zero_iff hay needle).2 hb]
  · rw [beq_eq_false_iff_ne]
    intro hc
    rw [(jsIndexOf_eq_zero_iff hay needle).1 hc] at hb
    exact Bool.noConfusion hb

theorem unbindAll_eq (st : BB) (q : JStr) :
    (unbindAll st (some q)).bindings =
      st.bindings.filter fun e => !(q.isPrefixOf e.1) := by
  simp only [unbindAll]
  exact List.filter_congr fun e _ => by rw [jsIndexOf_beq_zero]

theorem unobserveAll_eq (st : BB) (q : JStr) :
    (unobserveAll st (some q)).observables =
      st.observables.filter fun e => !(q.isPrefixOf e.1) := by
  simp only [unobserveAll]
  exact List.filter_congr fun e _ => by rw [jsIndexOf_beq_zero]

theorem alookup_eq_none {α : Type} (L : List (JStr × α)) (k : JStr)
    (h : alookup L k = none) : ∀ e ∈ L, e.1 ≠ k := by
  induction L with
  | nil => intro e he; exact absurd he (List.not_mem_nil e)
  | cons e0 rest ih =>
    rcases e0 with ⟨k0, v0⟩
    simp only [alookup] at h
    split at h
    · exact Option.noConfusion h
    · rename_i hne
      intro e he
      rcases List.mem_cons.1 he with rfl | hmem
      · exact hne
      · exact ih h e hmem

theorem alookup_map_emptyAt (L : Observables) (key k : JStr) :
    alookup (L.map fun e => if e.1 = key then (e.1, ([] : List Obs)) else e)
        k =
      if k = key then (alookup L k).map fun _ => ([] : List Obs)
      else alookup L k := by
  induction L with
  | nil => simp only [List.map_nil, alookup]; split <;> rfl
  | cons e rest ih =>
    rcases e with ⟨k1, l1⟩
    simp only [List.map_cons]
    by_cases h1 : k1 = key
    · rw [if_pos h1]
      simp only [alookup]
      by_cases h2 : k1 = k
      · have hkk : k = key := by rw [← h2, h1]
        rw [if_pos h2, if_pos hkk, if_pos h2]
        rfl
      · have hk : ¬ k = key := fun hc => h2 (by rw [h1, ← hc])
        rw [if_neg h2, ih]
        simp [hk, h2]
    · rw [if_neg h1]
      simp only [alookup]
      by_cases h2 : k1 = k
      · have hk : ¬ k = key := fun hc => h1 (by rw [h2, hc])
        rw [if_pos h2, if_neg hk, if_pos h2]
      · rw [if_neg h2, ih]
        simp [h2]

theorem unobserve_observables (st : BB) (p : JStr) :
    (unobserve st (some p)).observables =
      st.observables.map fun e =>
        if e.1 = p then (e.1, ([] : List Obs)) else e := by
  simp only [unobserve, jsObsKey]
  cases hp : alookup st.observables p with
  | none =>
    have hall := alookup_eq_none st.observables p hp
    have hcong : ∀ e ∈ st.observables,
        (if e.1 = p then (e.1, ([] : List Obs)) else e) = id e :=
      fun e he => by rw [if_neg (hall e he)]; rfl
    rw [List.map_congr_left hcong, List.map_id]
  | some l => rfl

theorem unobserve_alookup (st : BB) (p k : JStr) :
    alookup (unobserve st (some p)).observables k =
      if k = p then (alookup st.observables p).map fun _ => ([] : List Obs)
      else alookup st.observables k := by
  rw [unobserve_observables, alookup_map_emptyAt]
  split
  · rename_i hkp; rw [hkp]
  · rfl

theorem NoopObs.of_unbindAll {st : BB} (hN : NoopObs st) (q : Option JStr) :
    NoopObs (unbindAll st q) := hN

theorem NoopObs.of_unobserve {st : BB} (hN : NoopObs st) (p : Option JStr) :
    NoopObs (unobserve st p) := by
  intro e he ob hob
  simp only [unobserve] at he
  split at he
  · exact hN e he ob hob
  · rcases List.mem_map.1 he with ⟨e0, he0, hfe⟩
    by_cases h0 : e0.1 = jsObsKey p
    · rw [if_pos h0] at hfe
      rw [← hfe] at hob
      exact absurd hob (List.not_mem_nil ob)
    · rw [if_neg h0] at hfe
      rw [← hfe] at hob
      exact hN e0 he0 ob hob

theorem NoopObs.data_set {st : BB} (hN : NoopObs st) (d : JSVal) :
    NoopObs { st with data := d } := hN

/-- State left by `delete` when all observers are inert: bindings filtered by
string prefix, observers emptied at exactly the deleted path, the element
removed from the document. -/
theorem delete_state (st : BB) (p : JStr) (hN : NoopObs st) :
    (delete st p).1 =
      { data := deleteWalk st.data (splitOnDot p),
        bindings := st.bindings.filter fun e => !(p.isPrefixOf e.1),
        observables := st.observables.map fun e =>
          if e.1 = p then (e.1, ([] : List Obs)) else e,
        thrown := st.thrown } := by
  simp only [delete]
  have hN3 : NoopObs
      { unobserve (unbindAll st (some p)) (some p) with
          data := deleteWalk (unobserve (unbindAll st (some p)) (some p)).data
            (splitOnDot p) } :=
    ((hN.of_unbindAll (some p)).of_unobserve (some p)).data_set _
  rw [notify_noop _ _ _ _ _ hN3]
  have hobs := unobserve_observables (unbindAll st (some p)) p
  have hdata : (unobserve (unbindAll st (some p)) (some p)).data = st.data :=
    unobserve_data _ _
  have hbind : (unobserve (unbindAll st (some p)) (some p)).bindings =
      (unbindAll st (some p)).bindings := unobserve_bindings _ _
  have hobs2 : (unbindAll st (some p)).observables = st.observables := rfl
  have hthr : (unobserve (unbindAll st (some p)) (some p)).thrown =
      st.thrown := unobserve_thrown _ _
  simp only [hdata, hbind, hobs, hobs2, hthr, unbindAll_eq]

end BBData

namespace BBData

theorem ancestorsLoop_struct (chain : List JStr) :
    ∀ (st : BB) (cp : JStr) (a : Action) (el : Option Nat),
      ∃ blocks : List (List Event),
        (ancestorsLoop st chain cp a el).2 = blocks.flatten ∧
        List.Forall₂
          (fun q blk => ∀ ev ∈ blk, ∃ ctx oid,
            ev = .observerCall (some q) a cp (get st.data (some q) false) el
              ctx oid)
          chain blocks := by
  induction chain with
  | nil =>
    intro st cp a el
    exact ⟨[], rfl, List.Forall₂.nil⟩
  | cons q rest ih =>
    intro st cp a el
    simp only [ancestorsLoop]
    split
    · rcases ih st cp a el with ⟨blocks, heq, hrel⟩
      refine ⟨[] :: blocks, ?_, List.Forall₂.cons ?_ hrel⟩
      · simp [heq]
      · intro ev hev; exact absurd hev (List.not_mem_nil ev)
    · rcases ih (notifyObserversForPath st (some q) (get st.data (some q)
        false) cp a el).1 cp a el with ⟨blocks, heq, hrel⟩
      have hd : (notifyObserversForPath st (some q) (get st.data (some q)
          false) cp a el).1.data = st.data :=
        notifyObserversForPath_data _ _ _ _ _ _
      simp only [hd] at hrel
      refine ⟨(notifyObserversForPath st (some q) (get st.data (some q)
        false) cp a el).2 :: blocks, ?_, List.Forall₂.cons ?_ hrel⟩
      · simp [heq]
      · intro ev hev
        exact notifyObserversForPath_shape _ _ _ _ _ _ _ hev

theorem ancestorChain_length (path : JStr) :
    (ancestorChain path).length = ((splitOnDot path).dropLast).length := by
  simp [ancestorChain]

theorem ancestorChain_get (path : JStr) (k : Nat)
    (hk : k < (ancestorChain path).length) :
    (ancestorChain path).get ⟨k, hk⟩ =
      joinDot (((splitOnDot path).dropLast).take
        (((splitOnDot path).dropLast).length - k)) := by
  have hk' := hk
  rw [ancestorChain_length] at hk'
  simp only [ancestorChain, List.get_eq_getElem, List.getElem_map,
    List.getElem_reverse, List.getElem_range]
  congr 2
  simp only [List.length_reverse, List.length_range]
  omega

end BBData

namespace BBData

theorem setWalk_cons (doc : JSVal) (s y : JStr) (ys : List JStr) (f : JStr)
    (v : JSVal) :
    setWalk doc (s :: y :: ys) f v =
      (setMember doc s
        (setWalk (if isObject (member doc s) then member doc s
          else .obj .nil) (y :: ys) f v).1,
       (setWalk (if isObject (member doc s) then member doc s
          else .obj .nil) (y :: ys) f v).2) := by
  simp only [setWalk]
  split <;> rfl

theorem setWalk_resolve (pre : List JStr) :
    ∀ (doc tgt : JSVal) (cur f : JStr) (v : JSVal),
      resolvesComposite doc pre = some tgt →
      setWalk doc (pre ++ [cur]) f v =
        (updateAlong doc pre (setWalk tgt [cur] f v).1,
         (setWalk tgt [cur] f v).2) := by
  induction pre with
  | nil =>
    intro doc tgt cur f v h
    cases Option.some.inj h
    rfl
  | cons s pre' ih =>
    intro doc tgt cur f v h
    simp only [resolvesComposite] at h
    split at h
    · rename_i hobj
      obtain ⟨y, ys, hyys⟩ : ∃ y ys, pre' ++ [cur] = y :: ys := by
        cases pre' <;> exact ⟨_, _, rfl⟩
      have hstep := setWalk_cons doc s y ys f v
      rw [if_pos hobj] at hstep
      have hrec := ih (member doc s) tgt cur f v h
      rw [← hyys] at hstep
      show setWalk doc (s :: (pre' ++ [cur])) f v = _
      rw [hstep, hrec]
      rfl
    · exact Option.noConfusion h

theorem canonIndex_natToStr {k : JStr} {i : Nat} (h : canonIndex k = some i) :
    natToStr i = k := by
  simp only [canonIndex] at h
  split at h
  · rename_i heq
    cases Option.some.inj h
    exact heq
  · exact Option.noConfusion h

theorem mem_head_part (b : Bindings) (path : JStr) (v : JSVal)
    (attrs : List (JStr × List Nat)) (attr : JStr) (ids : List Nat)
    (bid : Nat) (hb : alookup b path = some attrs)
    (ha : alookup attrs attr = some ids) (hbid : bid ∈ ids) :
    Event.bindingUpdate path attr bid v ∈
      updateBoundElementsForPath b path v := by
  simp only [updateBoundElementsForPath, hb]
  apply List.mem_flatten.2
  refine ⟨updateBoundElementsForPathAndAttribute b path attr v, ?_, ?_⟩
  · exact List.mem_map.2 ⟨(attr, ids), alookup_mem _ _ _ ha, rfl⟩
  · simp only [updateBoundElementsForPathAndAttribute, hb, ha]
    exact List.mem_map.2 ⟨bid, hbid, rfl⟩

theorem self_mem_updRec (b : Bindings) (path : JStr) (v : JSVal)
    (attrs : List (JStr × List Nat)) (attr : JStr) (ids : List Nat)
    (bid : Nat) (hb : alookup b path = some attrs)
    (ha : alookup attrs attr = some ids) (hbid : bid ∈ ids) :
    Event.bindingUpdate path attr bid v ∈
      updateBoundElementsAtPathRecursivly b path v := by
  have hmem := mem_head_part b path v attrs attr ids bid hb ha hbid
  cases v with
  | obj fs =>
    simp only [updateBoundElementsAtPathRecursivly]
    exact List.mem_append_left _ hmem
  | arr es =>
    simp only [updateBoundElementsAtPathRecursivly]
    exact List.mem_append_left _ hmem
  | null =>
    simp only [updateBoundElementsAtPathRecursivly, List.append_nil]
    exact hmem
  | undefined =>
    simp only [updateBoundElementsAtPathRecursivly, List.append_nil]
    exact hmem
  | bool x =>
    simp only [updateBoundElementsAtPathRecursivly, List.append_nil]
    exact hmem
  | num x =>
    simp only [updateBoundElementsAtPathRecursivly, List.append_nil]
    exact hmem
  | str x =>
    simp only [updateBoundElementsAtPathRecursivly, List.append_nil]
    exact hmem

theorem mem_updFields (b : Bindings) (path : JStr) :
    ∀ (fs : JSFields) (k : JStr) (c : JSVal) (ev : Event),
      fs.lookup k = some c →
      ev ∈ updateBoundElementsAtPathRecursivly b (path ++ '.' :: k) c →
      ev ∈ updFields b path fs
  | .nil, k, c, ev, h, hm => by simp [JSFields.lookup] at h
  | .cons k1 v1 rest, k, c, ev, h, hm => by
    simp only [JSFields.lookup] at h
    split at h
    · rename_i heq
      cases Option.some.inj h
      simp only [updFields]
      apply List.mem_append_left
      rw [heq]
      exact hm
    · simp only [updFields]
      exact List.mem_append_right _ (mem_updFields b path rest k c ev h hm)

theorem mem_updItems (b : Bindings) (path : JStr) :
    ∀ (es : JSItems) (j i : Nat) (c : JSVal) (ev : Event),
      es.get? j = some c →
      ev ∈ updateBoundElementsAtPathRecursivly b
        (path ++ '.' :: natToStr (i + j)) c →
      ev ∈ updItems b path i es
  | .nil, j, i, c, ev, h, hm => by simp [JSItems.get?] at h
  | .cons v1 rest, j, i, c, ev, h, hm => by
    cases j with
    | zero =>
      simp only [JSItems.get?] at h
      cases Option.some.inj h
      simp only [updItems]
      apply List.mem_append_left
      simpa using hm
    | succ j' =>
      simp only [JSItems.get?] at h
      simp only [updItems]
      apply List.mem_append_right
      apply mem_updItems b path rest j' (i + 1) c ev h
      have harith : i + 1 + j' = i + (j' + 1) := by omega
      rw [harith]
      exact hm

theorem subValue_mem_updRec (b : Bindings) :
    ∀ (ks : List JStr) (path : JStr) (v w : JSVal)
      (attrs : List (JStr × List Nat)) (attr : JStr) (ids : List Nat)
      (bid : Nat),
      subValue v ks = some w →
      alookup b (extendPath path ks) = some attrs →
      alookup attrs attr = some ids → bid ∈ ids →
      Event.bindingUpdate (extendPath path ks) attr bid w ∈
        updateBoundElementsAtPathRecursivly b path v := by
  intro ks
  induction ks with
  | nil =>
    intro path v w attrs attr ids bid hsv hb ha hbid
    cases Option.some.inj hsv
    exact self_mem_updRec b path v attrs attr ids bid hb ha hbid
  | cons k rest ih =>
    intro path v w attrs attr ids bid hsv hb ha hbid
    cases v with
    | obj fs =>
      simp only [subValue] at hsv
      cases hf : fs.lookup k with
      | none => simp [hf] at hsv
      | some c =>
        simp only [hf] at hsv
        have hmem := ih (path ++ '.' :: k) c w attrs attr ids bid hsv hb ha
          hbid
        simp only [updateBoundElementsAtPathRecursivly]
        exact List.mem_append_right _
          (mem_updFields b path fs k c _ hf hmem)
    | arr es =>
      simp only [subValue] at hsv
      cases hci : canonIndex k with
      | none => simp [hci] at hsv
      | some i =>
        simp only [hci] at hsv
        cases hg : es.get? i with
        | none => simp [hg] at hsv
        | some c =>
          simp only [hg] at hsv
          have hmem := ih (path ++ '.' :: k) c w attrs attr ids bid hsv hb ha
            hbid
          simp only [updateBoundElementsAtPathRecursivly]
          apply List.mem_append_right
          apply mem_updItems b path es i 0 c _ hg
          rw [Nat.zero_add, canonIndex_natToStr hci]
          exact hmem
    | null => simp [subValue] at hsv
    | undefined => simp [subValue] at hsv
    | bool x => simp [subValue] at hsv
    | num x => simp [subValue] at hsv
    | str x => simp [subValue] at hsv

theorem subValue_mem_atPath (b : Bindings) (P : JStr) (V : JSVal)
    (k : JStr) (rest : List JStr) (w : JSVal)
    (attrs : List (JStr × List Nat)) (attr : JStr) (ids : List Nat)
    (bid : Nat) (hsv : subValue V (k :: rest) = some w)
    (hb : alookup b (extendPath P (k :: rest)) = some attrs)
    (ha : alookup attrs attr = some ids) (hbid : bid ∈ ids) :
    Event.bindingUpdate (extendPath P (k :: rest)) attr bid w ∈
      updateBoundElementsAtPath b P V := by
  cases V with
  | obj fs =>
    simp only [subValue] at hsv
    cases hf : fs.lookup k with
    | none => simp [hf] at hsv
    | some c =>
      simp only [hf] at hsv
      have hmem := subValue_mem_updRec b rest (P ++ '.' :: k) c w attrs attr
        ids bid hsv hb ha hbid
      exact mem_updFields b P fs k c _ hf hmem
  | arr es =>
    simp only [subValue] at hsv
    cases hci : canonIndex k with
    | none => simp [hci] at hsv
    | some i =>
      simp only [hci] at hsv
      cases hg : es.get? i with
      | none => simp [hg] at hsv
      | some c =>
        simp only [hg] at hsv
        have hmem := subValue_mem_updRec b rest (P ++ '.' :: k) c w attrs
          attr ids bid hsv hb ha hbid
        apply mem_updItems b P es i 0 c _ hg
        rw [Nat.zero_add, canonIndex_natToStr hci]
        exact hmem
  | null => simp [subValue] at hsv
  | undefined => simp [subValue] at hsv
  | bool x => simp [subValue] at hsv
  | num x => simp [subValue] at hsv
  | str x => simp [subValue] at hsv

end BBData

namespace BBData

theorem isPrefixOf_self (l : JStr) : l.isPrefixOf l = true := by
  induction l with
  | nil => rfl
  | cons c t ih => simp [List.isPrefixOf, ih]

theorem alookup_filter_none {α : Type} (L : List (JStr × α)) (p : JStr)
    (f : JStr × α → Bool) (hp : ∀ e ∈ L, e.1 = p → f e = false) :
    alookup (L.filter f) p = none := by
  induction L with
  | nil => rfl
  | cons e rest ih =>
    rcases e with ⟨k, x⟩
    by_cases hk : k = p
    · have hfe := hp (k, x) (List.mem_cons_self _ _) hk
      simp only [List.filter_cons, hfe]
      exact ih fun e he h1 => hp e (List.mem_cons_of_mem _ he) h1
    · simp only [List.filter_cons]
      split
      · simp only [alookup, if_neg hk]
        exact ih fun e he h1 => hp e (List.mem_cons_of_mem _ he) h1
      · exact ih fun e he h1 => hp e (List.mem_cons_of_mem _ he) h1

theorem unobserve_alookup_self (st : BB) (p : JStr) :
    alookup (unobserve st (some p)).observables p =
      (alookup st.observables p).map fun _ => ([] : List Obs) := by
  rw [unobserve_alookup]
  simp

theorem unobserve_alookup_other (st : BB) (p k : JStr) (h : ¬ k = p) :
    alookup (unobserve st (some p)).observables k =
      alookup st.observables k := by
  rw [unobserve_alookup, if_neg h]

/-- One re-entrant `unobserve` of the notified path during the first callback
stops the live-index loop before any further observer at that path runs. -/
theorem notifyObserversForPath_unobserve_first (st : BB) (p : JStr)
    (v : JSVal) (cp : JStr) (a : Action) (el : Option Nat) (ob : Obs)
    (rest : List Obs)
    (hlk : alookup st.observables p = some (ob :: rest))
    (heff : ob.effect = .unobserveEff (some p)) :
    notifyObserversForPath st (some p) v cp a el =
      (unobserve st (some p),
       [.observerCall (some p) a cp v el ob.context ob.id]) := by
  have htail : ∀ f, obsLoop f (unobserve st (some p)) (some p) v cp a el 1 =
      (unobserve st (some p), []) := by
    intro f
    cases f with
    | zero => rfl
    | succ f' =>
      have h2 : alookup (unobserve st (some p)).observables p = some [] := by
        rw [unobserve_alookup_self, hlk]
        rfl
      simp only [obsLoop, jsObsKey, h2]
      rfl
  simp only [notifyObserversForPath, jsObsKey, hlk, List.length_cons]
  simp only [obsLoop, jsObsKey, hlk, List.get?]
  rw [heff]
  simp only [applyEffect]
  rw [htail rest.length]

end BBData

namespace BBData

theorem strictEq_self_of_not_object (v : JSVal) (h : isObject v = false) :
    strictEq v v = true := by
  cases v <;> simp_all [strictEq, isObject]

theorem strictEq_object_right (v w : JSVal) (h : isObject v = true) :
    strictEq w v = false := by
  cases v <;> cases w <;> simp_all [strictEq, isObject]

theorem obsPath_of_isBindingUpdate (ev : Event)
    (h : ev.isBindingUpdate = true) : ev.obsPath = none := by
  cases ev with
  | bindingUpdate a b c d => rfl
  | observerCall a b c d e f g => exact Bool.noConfusion h

/-- C3: for a primitive current value, `set(p, get(p))` is a strict no-op
with an unchanged state and an empty trace; a composite new value never
passes the equality short-circuit, so setting a structurally identical
array at "a" still mutates and notifies the observer there. -/
theorem spec_C3 :
    (∀ (st : BB) (p : JStr) (el : Option Nat),
      isObject (get st.data (some p) false) = false →
      set st p (get st.data (some p) false) el = (st, none, [])) ∧
    (∀ (st : BB) (p : JStr) (v : JSVal) (el : Option Nat),
      isObject v = true → (set st p v el).2.1.isSome = true) ∧
    ((set exC3 "a".data (.arr (.cons (.num 1) .nil)) none).2.1 =
        some "a".data ∧
      Event.observerCall (some "a".data) .update "a".data
          (.arr (.cons (.num 1) .nil)) none none 3 ∈
        (set exC3 "a".data (.arr (.cons (.num 1) .nil)) none).2.2) := by
  refine ⟨?_, ?_, by decide, by decide⟩
  · intro st p el h
    simp only [set]
    rw [if_pos (strictEq_self_of_not_object _ h)]
  · intro st p v el h
    simp only [set]
    rw [if_neg (by rw [strictEq_object_right _ _ h]; exact Bool.false_ne_true)]
    rfl

/-- C3 witness: on document with primitive 5 at "a", setting the read-back
value changes nothing and emits nothing; a composite write returns a
canonical path. -/
theorem spec_C3_witness :
    (set exC3p "a".data (get exC3p.data (some "a".data) false) none =
      (exC3p, none, [])) ∧
    (set exC3p "a".data (.obj .nil) none).2.1.isSome = true :=
  ⟨spec_C3.1 exC3p "a".data none (by decide),
   spec_C3.2.1 exC3p "a".data (.obj .nil) none (by decide)⟩

/-- C6 counterexample: after `move("a.b", "c.0")` the observer registered at
the descendant path "a.b.x" — a subscriber rooted at fromPath — is still
registered, so the claimed teardown of subscribers rooted at fromPath does
not happen. -/
theorem spec_C6_cex :
    (move exC6 "a.b".data "c.0".data).1.observables =
      [("a.b".data, []),
       ("a.b.x".data, [{ id := 5, effect := .noop, context := none }])] := by
  decide

/-- C6 amended: move is a no-op on equal paths; otherwise it reads the value
at fromPath, deletes it — emitting the delete notification, and removing
bindings whose paths have fromPath as a string prefix and observer
registrations at exactly fromPath (observer registrations at descendant
paths survive) — then re-inserts at toPath, inserting (not overwriting) at
the clamped index of a sequence destination and notifying that insertion
with action create; after `move("a.b", "c.0")` the value sits inserted at
index 0, the existing elements are shifted, and the original "a.b" key is
absent. With a root observer present (`exC6r`), the move trace is exactly
the delete notification (action `delete`, changed path "a.b", the live
post-delete document) followed by the insertion notification (action
`create`, changed path "c.0", the live post-insert document). -/
theorem spec_C6_amended :
    (∀ (st : BB) (p : JStr), move st p p = (st, none, [])) ∧
    ((move exC6 "a.b".data "c.0".data).2.1 = some "c.0".data ∧
     (move exC6 "a.b".data "c.0".data).1.data =
       .obj (.cons "a".data (.obj .nil)
         (.cons "c".data
           (.arr (.cons (.obj (.cons "x".data (.num 1) .nil))
             (.cons (.str "p".data) (.cons (.str "q".data) .nil)))) .nil)) ∧
     (move exC6 "a.b".data "c.0".data).1.bindings = [] ∧
     (move exC6 "a.b".data "c.0".data).1.observables =
       [("a.b".data, []),
        ("a.b.x".data,
          [{ id := 5, effect := .noop, context := none }])]) ∧
    ((move exC6r "a.b".data "c.0".data).2.2 =
      [.observerCall none .delete "a.b".data
        (.obj (.cons "a".data (.obj .nil)
          (.cons "c".data
            (.arr (.cons (.str "p".data) (.cons (.str "q".data) .nil)))
            .nil))) none none 8,
       .observerCall none .create "c.0".data
        (.obj (.cons "a".data (.obj .nil)
          (.cons "c".data
            (.arr (.cons (.obj (.cons "x".data (.num 1) .nil))
              (.cons (.str "p".data) (.cons (.str "q".data) .nil))))
            .nil))) none none 8]) := by
  refine ⟨?_, ⟨by decide, by decide, by decide, by decide⟩, by decide⟩
  intro st p
  simp [move]

/-- The TypeError from splicing a non-sequence destination parent is
reachable: `move("c", "c.0")` picks the sequence branch before deleting,
the delete removes the sequence at "c", the walk recreates a plain object
there, and the final `splice` throws — modelled as the thrown flag with no
returned path and no insertion notification. -/
theorem move_typeError_reachable :
    (move exMoveThrow "c".data "c.0".data).1.thrown = true ∧
    (move exMoveThrow "c".data "c.0".data).2.1 = none ∧
    (move exMoveThrow "c".data "c.0".data).2.2 = [] := by
  refine ⟨by decide, by decide, by decide⟩

/-- C7 counterexample: with two observers registered at "p" when
notification begins, the first callback re-entrantly unobserves "p" and the
second observer (id 11) is skipped: the full trace of the mutation holds
only the first observer's call. -/
theorem spec_C7_cex :
    (set exC7 "p".data (.num 2) none).2.2 =
      [.observerCall (some "p".data) .update "p".data (.num 2) none none
        10] := by
  decide

/-- C7 amended: observer iteration reads the live registration list rather
than a snapshot: when the first callback at P re-entrantly unobserves P, the
loop ends without invoking the remaining observers registered at P at the
moment notification began (it does not crash and produces exactly the first
call). -/
theorem spec_C7_amended (st : BB) (p : JStr) (v : JSVal) (cp : JStr)
    (a : Action) (el : Option Nat) (ob : Obs) (rest : List Obs)
    (hlk : alookup st.observables p = some (ob :: rest))
    (heff : ob.effect = .unobserveEff (some p)) :
    notifyObserversForPath st (some p) v cp a el =
      (unobserve st (some p),
       [.observerCall (some p) a cp v el ob.context ob.id]) :=
  notifyObserversForPath_unobserve_first st p v cp a el ob rest hlk heff

/-- C7 witness: the amended statement at the concrete two-observer state. -/
theorem spec_C7_amended_witness :
    notifyObserversForPath exC7 (some "p".data) (.num 2) "p".data .update
        none =
      (unobserve exC7 (some "p".data),
       [.observerCall (some "p".data) .update "p".data (.num 2) none none
         10]) :=
  spec_C7_amended exC7 "p".data (.num 2) "p".data .update none
    { id := 10, effect := .unobserveEff (some "p".data), context := none }
    [{ id := 11, effect := .noop, context := none }] (by decide) (by decide)

/-- C8: `unbindAll(q)` and `unobserveAll(q)` remove exactly the stored
registrations whose path starts with q as a character prefix (not
segment-aware): removing "user" drops "user", "user.a" and the unrelated
"username", keeping "team". -/
theorem spec_C8 :
    (∀ (st : BB) (q : JStr),
      (unbindAll st (some q)).bindings =
        st.bindings.filter fun e => !(q.isPrefixOf e.1)) ∧
    (∀ (st : BB) (q : JStr),
      (unobserveAll st (some q)).observables =
        st.observables.filter fun e => !(q.isPrefixOf e.1)) ∧
    ((unbindAll exC8 (some "user".data)).bindings =
        [("team".data, [("value".data, [3])])] ∧
      (unobserveAll exC8 (some "user".data)).observables =
        [("team".data, [{ id := 9, effect := .noop, context := none }])]) :=
  ⟨unbindAll_eq, unobserveAll_eq, by decide, by decide⟩

/-- C9 counterexample: `set("a", 1)` on a document already holding 1 at "a"
short-circuits and returns undefined (modelled `none`), not a canonical
path string, refuting "every call returns the canonical path as a
string". -/
theorem spec_C9_cex : (set exC9 "a".data (.num 1) none).2.1 = none := by
  decide

/-- C9 amended: set returns the canonical path of the mutation exactly when
the strict-equality short-circuit does not fire; a short-circuited call
performs nothing and returns undefined. -/
theorem spec_C9_amended (st : BB) (path : JStr) (v : JSVal)
    (el : Option Nat) :
    (set st path v el).2.1.isSome =
      !(strictEq (get st.data (some path) false) v) := by
  simp only [set]
  split
  · rename_i h
    simp [h]
  · rename_i h
    simp only [Bool.not_eq_true] at h
    simp [h]

end BBData

namespace BBData

/-- C1 counterexample: with a binding and an observer both at "a.b",
`delete("a")` removes the binding but leaves the observer registration at
"a.b" in place, and a later `set("a.b", 2)` still notifies that observer —
refuting that delete unregisters both and that no notification reaches
either afterward. -/
theorem spec_C1_cex :
    (delete exC1 "a".data).1.bindings = [] ∧
    (delete exC1 "a".data).1.observables =
      [("a.b".data, [{ id := 0, effect := .noop, context := none }])] ∧
    Event.observerCall (some "a.b".data) .create "a.b".data (.num 2) none
        none 0 ∈
      (set (delete exC1 "a".data).1 "a.b".data (.num 2) none).2.2 := by
  refine ⟨by decide, by decide, by decide⟩

/-- C1 amended: `delete(p)` unregisters every binding whose path has p as a
string prefix, but removes observer registrations only at exactly p;
observer registrations at other paths — including descendants such as
"a.b" under `delete("a")` — remain stored and continue to receive
notifications. -/
theorem spec_C1_amended (st : BB) (p : JStr) (hN : NoopObs st) :
    (delete st p).1.bindings =
      st.bindings.filter (fun e => !(p.isPrefixOf e.1)) ∧
    (delete st p).1.observables =
      st.observables.map fun e =>
        if e.1 = p then (e.1, ([] : List Obs)) else e := by
  rw [delete_state st p hN]
  exact ⟨rfl, rfl⟩

/-- C1 witness: the amended registry effect at the concrete "a.b" state. -/
theorem spec_C1_amended_witness :
    (delete exC1 "a".data).1.bindings =
      exC1.bindings.filter (fun e => !(("a".data : JStr).isPrefixOf e.1)) ∧
    (delete exC1 "a".data).1.observables =
      exC1.observables.map fun e =>
        if e.1 = "a".data then (e.1, ([] : List Obs)) else e :=
  spec_C1_amended exC1 "a".data (by decide)

theorem setWalk_single_arr (es : JSItems) (cur f : JStr) (v : JSVal)
    (i : Int) (hpi : parseIntJS cur = some i) :
    setWalk (.arr es) [cur] f v =
      (setMember (.arr es)
          (if i > (es.length : Int) then natToStr es.length
           else if i < 0 then natToStr 0 else cur) v,
       (if getParentPath f ≠ [] then getParentPath f ++ ['.'] else []) ++
         (if i > (es.length : Int) then natToStr es.length
          else if i < 0 then natToStr 0 else cur),
       if isUndefined (member (.arr es)
          (if i > (es.length : Int) then natToStr es.length
           else if i < 0 then natToStr 0 else cur)) then Action.create
       else Action.update) := by
  simp only [setWalk, hpi]

/-- C4: when the walk reaches a sequence parent at the final segment and the
segment parses as a number, the written index is the parse result clamped
into the bounds (above length clamps to the append position, negative
clamps to 0), the returned canonical path is the parent path joined with
the clamped index, and the document is rewritten along the walk with
exactly that sequence write; concretely, on the list ["x","y"],
`set("list.10","z")` returns "list.2" and the list becomes ["x","y","z"]. -/
theorem spec_C4 :
    (∀ (st : BB) (pre : List JStr) (cur : JStr) (i : Int) (es : JSItems)
       (path : JStr) (v : JSVal) (el : Option Nat),
      splitOnDot path = pre ++ [cur] →
      resolvesComposite st.data pre = some (.arr es) →
      parseIntJS cur = some i →
      strictEq (get st.data (some path) false) v = false →
      (set st path v el).2.1 =
        some ((if getParentPath path ≠ [] then getParentPath path ++ ['.']
            else []) ++
          (if i > (es.length : Int) then natToStr es.length
           else if i < 0 then natToStr 0 else cur)) ∧
      (set st path v el).1.data =
        updateAlong st.data pre (setMember (.arr es)
          (if i > (es.length : Int) then natToStr es.length
           else if i < 0 then natToStr 0 else cur) v)) ∧
    ((set exC4 "list.10".data (.str "z".data) none).2.1 =
        some "list.2".data ∧
      (set exC4 "list.10".data (.str "z".data) none).1.data =
        .obj (.cons "list".data (.arr (.cons (.str "x".data)
          (.cons (.str "y".data) (.cons (.str "z".data) .nil)))) .nil)) := by
  refine ⟨?_, by decide, by decide⟩
  intro st pre cur i es path v el hsegs hres hpi hne
  have hni : ¬ (strictEq (get st.data (some path) false) v = true) := by
    rw [hne]; exact Bool.false_ne_true
  have hw := setWalk_resolve pre st.data (.arr es) cur path v hres
  have hsingle := setWalk_single_arr es cur path v i hpi
  constructor
  · simp only [set]
    rw [if_neg hni]
    rw [hsegs, hw, hsingle]
  · simp only [set]
    rw [if_neg hni]
    rw [notify_data]
    rw [hsegs, hw, hsingle]

/-- C4 witness: the general clamp statement applied at the list example. -/
theorem spec_C4_witness :
    (set exC4 "list.10".data (.str "z".data) none).2.1 =
      some ((if getParentPath "list.10".data ≠ [] then
          getParentPath "list.10".data ++ ['.'] else []) ++
        (if (10 : Int) > ((JSItems.cons (.str "x".data)
            (.cons (.str "y".data) .nil)).length : Int) then
          natToStr (JSItems.cons (.str "x".data)
            (.cons (.str "y".data) .nil)).length
         else if (10 : Int) < 0 then natToStr 0 else "10".data)) ∧
    (set exC4 "list.10".data (.str "z".data) none).1.data =
      updateAlong exC4.data ["list".data]
        (setMember (.arr (.cons (.str "x".data) (.cons (.str "y".data) .nil)))
          (if (10 : Int) > ((JSItems.cons (.str "x".data)
              (.cons (.str "y".data) .nil)).length : Int) then
            natToStr (JSItems.cons (.str "x".data)
              (.cons (.str "y".data) .nil)).length
           else if (10 : Int) < 0 then natToStr 0 else "10".data)
          (.str "z".data)) :=
  spec_C4.1 exC4 ["list".data] "10".data 10
    (.cons (.str "x".data) (.cons (.str "y".data) .nil)) "list.10".data
    (.str "z".data) none (by decide) (by decide) (by decide) (by decide)

/-- C5: when a composite V is written at P, every descendant sub-path
`P.k1...kn` holding a binding receives the corresponding sub-value of V
through the recursive descendant walk; concretely, with a binding at "a.b"
and document with empty mapping at "a", `set("a", mapping b to 7)` delivers
the value 7 to that binding. -/
theorem spec_C5 :
    (∀ (b : Bindings) (P : JStr) (V : JSVal) (k : JStr) (ks : List JStr)
       (w : JSVal) (attrs : List (JStr × List Nat)) (attr : JStr)
       (ids : List Nat) (bid : Nat),
      subValue V (k :: ks) = some w →
      alookup b (extendPath P (k :: ks)) = some attrs →
      alookup attrs attr = some ids → bid ∈ ids →
      Event.bindingUpdate (extendPath P (k :: ks)) attr bid w ∈
        updateBoundElementsAtPath b P V) ∧
    (Event.bindingUpdate "a.b".data "value".data 0 (.num 7) ∈
      (set exC5 "a".data (.obj (.cons "b".data (.num 7) .nil)) none).2.2) := by
  refine ⟨?_, by decide⟩
  intro b P V k ks w attrs attr ids bid hsv hb ha hbid
  exact subValue_mem_atPath b P V k ks w attrs attr ids bid hsv hb ha hbid

/-- C5 witness: the descendant fan-out statement applied at the "a.b"
binding with V the mapping sending b to 7. -/
theorem spec_C5_witness :
    Event.bindingUpdate (extendPath "a".data ["b".data]) "value".data 0
        (.num 7) ∈
      updateBoundElementsAtPath exC5.bindings "a".data
        (.obj (.cons "b".data (.num 7) .nil)) :=
  spec_C5.1 exC5.bindings "a".data (.obj (.cons "b".data (.num 7) .nil))
    "b".data [] (.num 7) [("value".data, [0])] "value".data [0] 0
    (by decide) (by decide) (by decide) (by decide)

end BBData

namespace BBData

/-- C2: for any mutation notification at canonical path P, the trace is the
binding updates (direct, then descendant — all `bindingUpdate` events),
followed by the observers registered exactly at P (called with V), followed
by one block per ancestor in `ancestorChain P` order — index k of that
chain is built from the first `length − k` segments of P, so notification
proceeds strictly root-ward, deepest ancestor first — each ancestor
observer receiving the value re-read live at its own path, followed last
(even when no intermediate ancestor has observers) by the root (null-path)
observers, which receive the live whole document. -/
theorem spec_C2 (st : BB) (P : JStr) (V : JSVal) (A : Action)
    (el : Option Nat) :
    ∃ (stF : BB) (exEvs : List Event) (blocks : List (List Event))
      (rootEvs : List Event),
      notify st P V A el =
        (stF, updateBoundElementsForPath st.bindings P V
          ++ updateBoundElementsAtPath st.bindings P V
          ++ exEvs ++ blocks.flatten ++ rootEvs) ∧
      (∀ ev ∈ updateBoundElementsForPath st.bindings P V,
        ev.isBindingUpdate = true) ∧
      (∀ ev ∈ updateBoundElementsAtPath st.bindings P V,
        ev.isBindingUpdate = true) ∧
      (∀ ev ∈ exEvs, ∃ ctx oid,
        ev = .observerCall (some P) A P V el ctx oid) ∧
      List.Forall₂ (fun q blk => ∀ ev ∈ blk, ∃ ctx oid,
        ev = .observerCall (some q) A P (get st.data (some q) false) el ctx
          oid) (ancestorChain P) blocks ∧
      (∀ ev ∈ rootEvs, ∃ ctx oid,
        ev = .observerCall none A P (get st.data (some []) false) el ctx
          oid) ∧
      (ancestorChain P).length = ((splitOnDot P).dropLast).length ∧
      (∀ (k : Nat) (hk : k < (ancestorChain P).length),
        (ancestorChain P).get ⟨k, hk⟩ =
          joinDot (((splitOnDot P).dropLast).take
            (((splitOnDot P).dropLast).length - k))) := by
  cases hp : alookup st.observables P with
  | none =>
    obtain ⟨blocks, hanc, hrel⟩ :=
      ancestorsLoop_struct (ancestorChain P) st P A el
    have hA : (ancestorsLoop st (ancestorChain P) P A el).1.data = st.data :=
      ancestorsLoop_data _ _ _ _ _
    refine ⟨(notify st P V A el).1, [], blocks,
      (notifyObserversForPath (ancestorsLoop st (ancestorChain P) P A el).1
        none (get (ancestorsLoop st (ancestorChain P) P A el).1.data
          (some []) false) P A el).2, ?_, ?_, ?_, ?_, hrel, ?_, ?_, ?_⟩
    · refine Prod.ext rfl ?_
      simp only [notify, notifyObserversFromPath, hp]
      rw [hanc]
      simp only [List.append_assoc]
    · intro ev hev; exact updateBoundElementsForPath_shape _ _ _ _ hev
    · intro ev hev; exact updateBoundElementsAtPath_shape _ _ _ _ hev
    · intro ev hev; exact absurd hev (List.not_mem_nil ev)
    · intro ev hev
      obtain ⟨ctx, oid, heq⟩ :=
        notifyObserversForPath_shape _ _ _ _ _ _ _ hev
      rw [hA] at heq
      exact ⟨ctx, oid, heq⟩
    · exact ancestorChain_length P
    · intro k hk; exact ancestorChain_get P k hk
  | some l =>
    have hr3d : (notifyObserversForPath st (some P) V P A el).1.data =
        st.data := notifyObserversForPath_data _ _ _ _ _ _
    obtain ⟨blocks, hanc, hrel⟩ :=
      ancestorsLoop_struct (ancestorChain P)
        (notifyObserversForPath st (some P) V P A el).1 P A el
    simp only [hr3d] at hrel
    have hA : (ancestorsLoop
        (notifyObserversForPath st (some P) V P A el).1 (ancestorChain P) P
        A el).1.data = st.data := by
      rw [ancestorsLoop_data, hr3d]
    refine ⟨(notify st P V A el).1,
      (notifyObserversForPath st (some P) V P A el).2, blocks,
      (notifyObserversForPath (ancestorsLoop
        (notifyObserversForPath st (some P) V P A el).1 (ancestorChain P) P
        A el).1 none (get (ancestorsLoop
        (notifyObserversForPath st (some P) V P A el).1 (ancestorChain P) P
        A el).1.data (some []) false) P A el).2,
      ?_, ?_, ?_, ?_, hrel, ?_, ?_, ?_⟩
    · refine Prod.ext rfl ?_
      simp only [notify, notifyObserversFromPath, hp]
      rw [hanc]
      simp only [List.append_assoc]
    · intro ev hev; exact updateBoundElementsForPath_shape _ _ _ _ hev
    · intro ev hev; exact updateBoundElementsAtPath_shape _ _ _ _ hev
    · intro ev hev
      exact notifyObserversForPath_shape _ _ _ _ _ _ _ hev
    · intro ev hev
      obtain ⟨ctx, oid, heq⟩ :=
        notifyObserversForPath_shape _ _ _ _ _ _ _ hev
      rw [hA] at heq
      exact ⟨ctx, oid, heq⟩
    · exact ancestorChain_length P
    · intro k hk; exact ancestorChain_get P k hk

end BBData

namespace BBData

theorem delete_eq_notify (st : BB) (p : JStr) :
    delete st p = notify (deleteMid st p) p .null .delete none := rfl

theorem deleteMid_data (st : BB) (p : JStr) :
    (deleteMid st p).data = deleteWalk st.data (splitOnDot p) := by
  show deleteWalk (unobserve (unbindAll st (some p)) (some p)).data
      (splitOnDot p) = _
  rw [unobserve_data]
  rfl

theorem deleteMid_alookup_bindings (st : BB) (p : JStr) :
    alookup (deleteMid st p).bindings p = none := by
  show alookup (unobserve (unbindAll st (some p)) (some p)).bindings p = none
  rw [unobserve_bindings]
  exact alookup_filter_none _ _ _ fun e he h1 => by
    rw [h1, jsIndexOf_beq_zero, isPrefixOf_self]
    rfl

theorem deleteMid_alookup_self (st : BB) (p : JStr) :
    alookup (deleteMid st p).observables p =
      (alookup st.observables p).map fun _ => ([] : List Obs) := by
  show alookup (unobserve (unbindAll st (some p)) (some p)).observables p = _
  rw [unobserve_alookup_self]
  rfl

theorem deleteMid_alookup_other (st : BB) (p cp : JStr) (h : ¬ cp = p) :
    alookup (deleteMid st p).observables cp = alookup st.observables cp := by
  show alookup (unobserve (unbindAll st (some p)) (some p)).observables cp
      = _
  rw [unobserve_alookup_other _ _ _ h]
  rfl

/-- C10: `delete(p)` empties the observer registrations at exactly p before
emitting its notification, so no observer call with path p occurs anywhere
in the delete trace, while every observer on an ancestor of p is still
notified with action `delete` and the value re-read from the post-delete
document. -/
theorem spec_C10 (st : BB) (p : JStr) (hN : NoopObs st)
    (hchain : ∀ cp ∈ ancestorChain p, cp ≠ p) :
    (∀ ev ∈ (delete st p).2, ev.obsPath ≠ some (some p)) ∧
    (∀ cp ∈ ancestorChain p, ∀ l, alookup st.observables cp = some l →
      ∀ ob ∈ l,
        Event.observerCall (some cp) .delete p
            (get (deleteWalk st.data (splitOnDot p)) (some cp) false) none
            ob.context ob.id ∈ (delete st p).2) := by
  have hN3 : NoopObs (deleteMid st p) :=
    ((hN.of_unbindAll (some p)).of_unobserve (some p)).data_set _
  have hq : (delete st p).2 = notifySpec (deleteMid st p) p .null .delete
      none := by
    rw [delete_eq_notify, notify_noop _ _ _ _ _ hN3]
  constructor
  · intro ev hev
    rw [hq] at hev
    simp only [notifySpec] at hev
    rcases List.mem_append.1 hev with h4 | hev
    · rcases List.mem_append.1 h4 with h3 | hevD
      · rcases List.mem_append.1 h3 with h2 | hevC
        · rcases List.mem_append.1 h2 with h1 | hevB
          · rw [obsPath_of_isBindingUpdate ev
              (updateBoundElementsForPath_shape _ _ _ _ h1)]
            simp
          · rw [obsPath_of_isBindingUpdate ev
              (updateBoundElementsAtPath_shape _ _ _ _ hevB)]
            simp
        · cases halk : alookup st.observables p with
          | none => simp [deleteMid_alookup_self, halk] at hevC
          | some l0 => simp [deleteMid_alookup_self, halk] at hevC
      · rcases List.mem_flatten.1 hevD with ⟨blk, hblk, hevb⟩
        rcases List.mem_map.1 hblk with ⟨cp, hcp, hbe⟩
        rw [← hbe] at hevb
        simp only [ancestorBlock] at hevb
        split at hevb
        · exact absurd hevb (List.not_mem_nil ev)
        · rcases List.mem_map.1 hevb with ⟨ob, hob, hevv⟩
          rw [← hevv]
          intro hcon
          simp only [Event.obsPath] at hcon
          exact hchain cp hcp (Option.some.inj (Option.some.inj hcon))
    · split at hev
      · exact absurd hev (List.not_mem_nil ev)
      · rcases List.mem_map.1 hev with ⟨ob, hob, hevv⟩
        rw [← hevv]
        intro hcon
        simp only [Event.obsPath] at hcon
        exact Option.noConfusion (Option.some.inj hcon)
  · intro cp hcp l hl ob hob
    rw [hq]
    simp only [notifySpec]
    apply List.mem_append_left
    apply List.mem_append_right
    apply List.mem_flatten.2
    refine ⟨ancestorBlock (deleteMid st p) p .delete none cp,
      List.mem_map_of_mem _ hcp, ?_⟩
    have halk : alookup (deleteMid st p).observables cp = some l := by
      rw [deleteMid_alookup_other st p cp (hchain cp hcp)]
      exact hl
    simp only [ancestorBlock, halk, deleteMid_data]
    exact List.mem_map_of_mem _ hob

end BBData

namespace BBData

/-- C10 witness: the delete-ordering statement at the two-observer state,
deleting "a.b". -/
theorem spec_C10_witness :
    (∀ ev ∈ (delete exC10 "a.b".data).2,
      ev.obsPath ≠ some (some "a.b".data)) ∧
    (∀ cp ∈ ancestorChain "a.b".data, ∀ l,
      alookup exC10.observables cp = some l → ∀ ob ∈ l,
        Event.observerCall (some cp) .delete "a.b".data
            (get (deleteWalk exC10.data (splitOnDot "a.b".data)) (some cp)
              false) none ob.context ob.id ∈
          (delete exC10 "a.b".data).2) :=
  spec_C10 exC10 "a.b".data (by decide) (by decide)

end BBData
